import Mathlib

/-!
Shallow embedding of the pikov animation store (`pikov/pikov.py`).

The program persists a directed graph of animation frames in SQLite:
an `image` table keyed by a content hash, a `frame` table referencing
images, a `transition` table of directed edges between frames, and a
singleton `pikov` row holding an optional start frame.  On top of the
tables the program offers a content-addressed image store
(`add_image` / `hash_image`), frame and transition creation, an
absorbing-frame query, a bounded random-walk preview (`_preview_clip` /
`get_random_next`) and a GIF exporter that coalesces consecutive
identical images (`Clip.save_gif`).

The embedding models the SQLite database as an explicit record of
tables, SQL statements as list operations, and the Python methods as
pure functions over that record.  Randomness is an explicit oracle
(`Nat → Nat`); `random.randrange n` becomes `oracle k % n`.  The
`while` loop of `_preview_clip` is embedded with explicit fuel, so that
its termination is a theorem rather than an assumption.
-/

/-- JSON-like values, as produced by `json.loads` and consumed by
`json.dumps` for the `properties` column of the `frame` table.
Python `None` is `JValue.null`. -/
inductive JValue : Type
  | null : JValue
  | boolean : Bool → JValue
  | num : Int → JValue
  | str : String → JValue
  | arr : List JValue → JValue
  | obj : List (String × JValue) → JValue

/-- A row of the `image` table: `key TEXT PRIMARY KEY, contents BLOB,
content_type TEXT`. -/
structure ImageRow where
  key : String
  contents : List Nat
  content_type : String

/-- A row of the `frame` table: `id INTEGER PRIMARY KEY, image_key TEXT
REFERENCES image(key), duration_microseconds INTEGER, properties TEXT`.
The JSON text of the `properties` column is modelled parsed, as the
association list `json.loads` yields (a SQL `NULL` column and the empty
object both read back as the empty bag, exactly as in
`Frame._get_properties`). -/
structure FrameRow where
  id : Nat
  image_key : String
  duration_microseconds : Nat
  properties : List (String × JValue)

/-- A row of the `transition` table: `id INTEGER PRIMARY KEY,
source_frame_id REFERENCES frame(id), target_frame_id REFERENCES
frame(id)`. -/
structure TransitionRow where
  id : Nat
  source_frame_id : Nat
  target_frame_id : Nat
  deriving DecidableEq

/-- The SQLite database behind one `Pikov` handle: the three data
tables plus the `start_frame_id` column of the singleton `pikov` row. -/
structure PikovDB where
  images : List ImageRow
  frames : List FrameRow
  transitions : List TransitionRow
  start_frame_id : Option Nat

/-- Errors the Python code can raise.  `notFound` is the repository's
`NotFound` exception; `invalidState` is the `ValueError` raised when a
deleted `Transition` handle is used (the spec's `InvalidState`);
`referentialError` is the `sqlite3.IntegrityError` produced by a
foreign-key violation (the spec's `ReferentialError`); `typeError` is
the CPython `TypeError` that subscripting a missing `fetchone()` row
would raise. -/
inductive PikovError : Type
  | notFound : PikovError
  | invalidState : PikovError
  | referentialError : PikovError
  | typeError : PikovError
  deriving DecidableEq

/- ### MD5 (the `hashlib.md5` collaborator used by `hash_image`) -/

/-- The 64 MD5 round constants `K[i] = floor(abs(sin(i+1)) * 2^32)`. -/
def md5K : Array Nat := #[
  0xd76aa478, 0xe8c7b756, 0x242070db, 0xc1bdceee,
  0xf57c0faf, 0x4787c62a, 0xa8304613, 0xfd469501,
  0x698098d8, 0x8b44f7af, 0xffff5bb1, 0x895cd7be,
  0x6b901122, 0xfd987193, 0xa679438e, 0x49b40821,
  0xf61e2562, 0xc040b340, 0x265e5a51, 0xe9b6c7aa,
  0xd62f105d, 0x02441453, 0xd8a1e681, 0xe7d3fbc8,
  0x21e1cde6, 0xc33707d6, 0xf4d50d87, 0x455a14ed,
  0xa9e3e905, 0xfcefa3f8, 0x676f02d9, 0x8d2a4c8a,
  0xfffa3942, 0x8771f681, 0x6d9d6122, 0xfde5380c,
  0xa4beea44, 0x4bdecfa9, 0xf6bb4b60, 0xbebfbc70,
  0x289b7ec6, 0xeaa127fa, 0xd4ef3085, 0x04881d05,
  0xd9d4d039, 0xe6db99e5, 0x1fa27cf8, 0xc4ac5665,
  0xf4292244, 0x432aff97, 0xab9423a7, 0xfc93a039,
  0x655b59c3, 0x8f0ccc92, 0xffeff47d, 0x85845dd1,
  0x6fa87e4f, 0xfe2ce6e0, 0xa3014314, 0x4e0811a1,
  0xf7537e82, 0xbd3af235, 0x2ad7d2bb, 0xeb86d391]

/-- The per-round left-rotation amounts of MD5. -/
def md5S : Array Nat := #[
  7, 12, 17, 22, 7, 12, 17, 22, 7, 12, 17, 22, 7, 12, 17, 22,
  5, 9, 14, 20, 5, 9, 14, 20, 5, 9, 14, 20, 5, 9, 14, 20,
  4, 11, 16, 23, 4, 11, 16, 23, 4, 11, 16, 23, 4, 11, 16, 23,
  6, 10, 15, 21, 6, 10, 15, 21, 6, 10, 15, 21, 6, 10, 15, 21]

/-- Truncation to an unsigned 32-bit machine word. -/
def u32 (n : Nat) : Nat := n % 4294967296

/-- Bitwise complement within 32 bits. -/
def not32 (n : Nat) : Nat := Nat.xor n 4294967295

/-- Left rotation of a 32-bit word. -/
def rotl32 (x c : Nat) : Nat :=
  u32 (Nat.lor (x <<< c) (x >>> (32 - c)))

/-- The MD5 nonlinear function of round `i`. -/
def md5F (i b c d : Nat) : Nat :=
  if i < 16 then Nat.lor (Nat.land b c) (Nat.land (not32 b) d)
  else if i < 32 then Nat.lor (Nat.land d b) (Nat.land (not32 d) c)
  else if i < 48 then Nat.xor (Nat.xor b c) d
  else Nat.xor c (Nat.lor b (not32 d))

/-- The message-word index used in round `i`. -/
def md5G (i : Nat) : Nat :=
  if i < 16 then i
  else if i < 32 then (5 * i + 1) % 16
  else if i < 48 then (3 * i + 5) % 16
  else (7 * i) % 16

/-- One MD5 round: rotate the state quadruple, mixing in message word
`M[g i]` and constant `K[i]`. -/
def md5Step (M : List Nat) (st : Nat × Nat × Nat × Nat) (i : Nat) :
    Nat × Nat × Nat × Nat :=
  let (a, b, c, d) := st
  let f := u32 (md5F i b c d + a + md5K.getD i 0 + M.getD (md5G i) 0)
  (d, u32 (b + rotl32 f (md5S.getD i 0)), b, c)

/-- Decode a byte list into little-endian 32-bit words. -/
def leWords : List Nat → List Nat
  | b0 :: b1 :: b2 :: b3 :: rest =>
      (b0 + 256 * b1 + 65536 * b2 + 16777216 * b3) :: leWords rest
  | _ => []

/-- Process one 64-byte chunk, updating the running digest state. -/
def md5Chunk (st : Nat × Nat × Nat × Nat) (chunk : List Nat) :
    Nat × Nat × Nat × Nat :=
  let M := leWords chunk
  let (a, b, c, d) := (List.range 64).foldl (md5Step M) st
  let (a0, b0, c0, d0) := st
  (u32 (a0 + a), u32 (b0 + b), u32 (c0 + c), u32 (d0 + d))

/-- Fold the digest state over a padded message, 64 bytes at a time. -/
def md5Chunks : (Nat × Nat × Nat × Nat) → List Nat → Nat × Nat × Nat × Nat
  | st, [] => st
  | st, b :: rest =>
      md5Chunks (md5Chunk st ((b :: rest).take 64)) ((b :: rest).drop 64)
  termination_by _ bs => bs.length
  decreasing_by simp [List.length_drop]; omega

/-- The `count` low-order bytes of `n`, little-endian. -/
def leBytes (n : Nat) : Nat → List Nat
  | 0 => []
  | c + 1 => (n % 256) :: leBytes (n / 256) c

/-- MD5 padding: a `0x80` byte, zeros up to 56 mod 64, then the bit
length as a little-endian 64-bit quantity. -/
def md5Pad (msg : List Nat) : List Nat :=
  msg ++ [0x80]
    ++ List.replicate ((120 - (msg.length + 1) % 64) % 64) 0
    ++ leBytes (msg.length * 8) 8

/-- One lowercase hexadecimal digit. -/
def hexDigit (n : Nat) : Char :=
  "0123456789abcdef".toList.getD n '0'

/-- Two-digit lowercase hex rendering of a byte. -/
def byteHex (b : Nat) : String :=
  String.mk [hexDigit (b / 16), hexDigit (b % 16)]

/-- Hex rendering of a 32-bit word, little-endian byte order as in an
MD5 digest string. -/
def wordLEHex (w : Nat) : String :=
  String.join ((leBytes w 4).map byteHex)

/-- `hashlib.md5(bytes).hexdigest()`: the full MD5 of a byte list,
rendered as 32 lowercase hex digits. -/
def md5hex (msg : List Nat) : String :=
  let (a, b, c, d) :=
    md5Chunks (0x67452301, 0xefcdab89, 0x98badcfe, 0x10325476) (md5Pad msg)
  wordLEHex a ++ wordLEHex b ++ wordLEHex c ++ wordLEHex d

/- ### Images and the content-addressed store -/

/-- A PIL image after normalization to the fixed `RGBA` mode, seen
through the interface `hash_image` uses: its size and its
`getpixel((x, y))` quadruples.  `PIL.Image.convert(mode='RGBA')` is the
identity in this representation, so two source images are
"pixel-identical after RGBA normalization" exactly when their `width`,
`height` and `pix` data agree. -/
structure RGBAImage where
  width : Nat
  height : Nat
  pix : Nat → Nat → Nat × Nat × Nat × Nat

/-- The byte stream `hash_image` feeds to MD5: for each `x` then each
`y`, the four channel bytes of `image.getpixel((x, y))` (the
`b"%c%c%c%c" % pixel` format of the source). -/
def imageBytes (img : RGBAImage) : List Nat :=
  (List.range img.width).flatMap fun x =>
    (List.range img.height).flatMap fun y =>
      let (r, g, b, a) := img.pix x y
      [r, g, b, a]

/-- `hash_image`: MD5 of the RGBA pixel bytes, prefixed with the
`md5-` scheme tag. -/
def hash_image (img : RGBAImage) : String :=
  "md5-" ++ md5hex (imageBytes img)

/-- The set of keys present in the `image` table (the column a
duplicate `INSERT` collides with, and the column the `frame` table's
foreign key references). -/
def imageKeys (db : PikovDB) : List String :=
  db.images.map ImageRow.key

/-- The set of ids present in the `frame` table. -/
def frameIds (db : PikovDB) : List Nat :=
  db.frames.map FrameRow.id

/-- `Pikov.add_image`: hash the image, then `INSERT` it; a duplicate
primary key raises `sqlite3.IntegrityError`, which the method catches
and reports as `(key, False)`.  The PNG serialization of the stored
`contents` blob is the external Pillow encoder, passed in as `enc`. -/
def add_image (enc : RGBAImage → List Nat) (db : PikovDB)
    (img : RGBAImage) : (String × Bool) × PikovDB :=
  let image_hash := hash_image img
  if image_hash ∈ imageKeys db then
    ((image_hash, false), db)
  else
    ((image_hash, true),
      { db with images := db.images ++ [⟨image_hash, enc img, "image/png"⟩] })

/-- The id SQLite assigns to a new `frame` row (`INTEGER PRIMARY KEY`
auto-assignment; frames are never deleted, so it is one past the
largest existing id). -/
def nextFrameId (db : PikovDB) : Nat :=
  (frameIds db).foldl max 0 + 1

/-- `Pikov.add_frame`: resolve the default duration of 100000
microseconds, `INSERT` the frame (the active `PRAGMA foreign_keys`
makes an unknown `image_key` raise `sqlite3.IntegrityError`), then set
`start_frame_id` to the new frame only `WHERE start_frame_id IS
NULL`. -/
def add_frame (db : PikovDB) (image_key : String)
    (duration : Option Nat) : Except PikovError Nat × PikovDB :=
  let duration_microseconds := duration.getD 100000
  if image_key ∈ imageKeys db then
    let frame_id := nextFrameId db
    let start' := match db.start_frame_id with
      | none => some frame_id
      | some s => some s
    (.ok frame_id,
      { db with
          frames := db.frames ++ [⟨frame_id, image_key, duration_microseconds, []⟩],
          start_frame_id := start' })
  else
    (.error .referentialError, db)

/-- The `Pikov.start_frame` setter: `UPDATE pikov SET start_frame_id =
?`, where the argument may be a frame or `None`; the foreign key on
`start_frame_id` rejects an id not present in the `frame` table. -/
def set_start_frame (db : PikovDB) (frame : Option Nat) :
    Except PikovError Unit × PikovDB :=
  match frame with
  | none => (.ok (), { db with start_frame_id := none })
  | some frame_id =>
      if frame_id ∈ frameIds db then
        (.ok (), { db with start_frame_id := some frame_id })
      else
        (.error .referentialError, db)

/- ### Frame properties -/

/-- Python dict assignment `properties[key] = value` on the parsed
JSON object: replace the value of an existing key in place, else
append the new key at the end. -/
def setAssoc (props : List (String × JValue)) (key : String)
    (value : JValue) : List (String × JValue) :=
  match props with
  | [] => [(key, value)]
  | (k, v) :: rest =>
      if k = key then (key, value) :: rest
      else (k, v) :: setAssoc rest key value

/-- The parsed property bag of a frame, or `none` when the frame row
is absent (where `Frame._get_properties` would crash subscripting a
missing row). -/
def frameProperties (db : PikovDB) (frame_id : Nat) :
    Option (List (String × JValue)) :=
  (db.frames.find? fun fr => fr.id = frame_id).map FrameRow.properties

/-- `Frame.set_property`: read the bag, assign the key, write the
merged bag back inside one transaction. -/
def set_property (db : PikovDB) (frame_id : Nat) (key : String)
    (value : JValue) : Option PikovDB :=
  match db.frames.find? fun fr => fr.id = frame_id with
  | none => none
  | some _ =>
      some { db with
        frames := db.frames.map fun fr =>
          if fr.id = frame_id then
            { fr with properties := setAssoc fr.properties key value }
          else fr }

/-- `Frame.get_property`: `properties.get(key)` on the parsed bag —
a missing key and a key stored as JSON `null` both come back as
Python `None` (`JValue.null`). -/
def get_property (db : PikovDB) (frame_id : Nat) (key : String) :
    Option JValue :=
  (frameProperties db frame_id).map fun props =>
    (props.lookup key).getD JValue.null

/- ### Transitions -/

/-- `Frame.transitions`: the `transition` rows with this frame as
source, `ORDER BY target_frame_id ASC`. -/
def frameTransitions (db : PikovDB) (frame_id : Nat) : List TransitionRow :=
  (db.transitions.filter fun t => t.source_frame_id = frame_id).insertionSort
    fun a b => a.target_frame_id ≤ b.target_frame_id

/-- `Frame.get_random_next` with the random draw `r` made explicit:
pick `targets[r % len(targets)]` among the targets of the outgoing
transitions, or stay on this frame when there are none. -/
def get_random_next (db : PikovDB) (frame_id : Nat) (r : Nat) : Nat :=
  let targets := (frameTransitions db frame_id).map TransitionRow.target_frame_id
  if h : targets = [] then frame_id
  else targets.get ⟨r % targets.length, Nat.mod_lt _ (List.length_pos.mpr h)⟩

/-- `Frame.transition_to`: `INSERT` a new edge; the active foreign
keys reject a missing endpoint.  The new row gets the next rowid. -/
def transition_to (db : PikovDB) (source_id target_id : Nat) :
    Except PikovError Nat × PikovDB :=
  if source_id ∈ frameIds db ∧ target_id ∈ frameIds db then
    let tid := (db.transitions.map TransitionRow.id).foldl max 0 + 1
    (.ok tid,
      { db with transitions := db.transitions ++ [⟨tid, source_id, target_id⟩] })
  else
    (.error .referentialError, db)

/-- A `Transition` Python handle: the row id, the `_deleted` flag, and
the lazily cached immutable endpoints. -/
structure TransitionHandle where
  id : Nat
  deleted : Bool
  cachedSource : Option Nat
  cachedTarget : Option Nat

/-- `Transition.source`: raise on a deleted handle, answer from the
cache, or fetch the endpoint and cache it. -/
def transitionSource (db : PikovDB) (h : TransitionHandle) :
    Except PikovError (Nat × TransitionHandle) :=
  if h.deleted then .error .invalidState
  else match h.cachedSource with
    | some s => .ok (s, h)
    | none =>
        match db.transitions.find? fun t => t.id = h.id with
        | some t => .ok (t.source_frame_id,
            { h with cachedSource := some t.source_frame_id })
        | none => .error .typeError

/-- `Transition.target`: raise on a deleted handle, answer from the
cache, or fetch the endpoint and cache it. -/
def transitionTarget (db : PikovDB) (h : TransitionHandle) :
    Except PikovError (Nat × TransitionHandle) :=
  if h.deleted then .error .invalidState
  else match h.cachedTarget with
    | some t => .ok (t, h)
    | none =>
        match db.transitions.find? fun t => t.id = h.id with
        | some t => .ok (t.target_frame_id,
            { h with cachedTarget := some t.target_frame_id })
        | none => .error .typeError

/-- `Transition.delete`: raise on an already deleted handle, else
`DELETE` the row and mark the handle inert. -/
def transitionDelete (db : PikovDB) (h : TransitionHandle) :
    Except PikovError (PikovDB × TransitionHandle) :=
  if h.deleted then .error .invalidState
  else .ok
    ({ db with transitions := db.transitions.filter fun t => ¬t.id = h.id },
      { h with deleted := true })

/- ### Absorbing frames -/

/-- `Pikov.find_absorbing_frames`: the SQL left outer join keeps a
frame exactly when no `transition` row has it as source with a
different target, and orders the result by frame id ascending. -/
def find_absorbing_frames (db : PikovDB) : List Nat :=
  ((frameIds db).filter fun fid =>
      ¬ db.transitions.any fun t =>
        t.source_frame_id = fid ∧ t.target_frame_id ≠ fid).insertionSort
    (· ≤ ·)

/- ### The bounded random-walk preview -/

/-- `Frame.duration` in microseconds, read from the frame row.  A
dangling frame id would crash the Python code; all walks below are run
under referential integrity, so the `0` default is never consulted in
the theorems. -/
def frameDur (db : PikovDB) (frame_id : Nat) : Nat :=
  ((db.frames.find? fun fr => fr.id = frame_id).map
    FrameRow.duration_microseconds).getD 0

/-- The `while` loop of `Pikov._preview_clip`, with explicit fuel.
State: `k` counts random draws, `acc` is `preview_frames`, `total` is
`total_duration` in microseconds and `next` is `next_frame`.  `none`
means the fuel ran out before the loop exited on its own. -/
def previewLoop (db : PikovDB) (oracle : Nat → Nat)
    (start minD maxD : Nat) :
    Nat → Nat → List Nat → Nat → Nat → Option (List Nat)
  | 0, _, _, _, _ => none
  | fuel + 1, k, acc, total, next =>
    if total < minD ∨ next ≠ start then
      let current := next
      let acc' := acc ++ [current]
      let total' := total + frameDur db current
      let nxt := get_random_next db current (oracle k)
      if total' + frameDur db nxt > maxD then some acc'
      else previewLoop db oracle start minD maxD fuel (k + 1) acc' total' nxt
    else some acc

/-- `Pikov._preview_clip` run with `fuel` loop iterations allowed: the
list of frame ids of the returned `Clip`, or `none` if the loop did
not exit within `fuel` iterations. -/
def preview_clip_fuel (db : PikovDB) (oracle : Nat → Nat)
    (start minD maxD fuel : Nat) : Option (List Nat) :=
  previewLoop db oracle start minD maxD fuel 0 [] 0 start

/- ### The GIF exporter -/

/-- Milliseconds of a microsecond duration:
`frame.duration.total_seconds() * 1000` (exact rational value). -/
def durationMs (duration_microseconds : Nat) : Rat :=
  (duration_microseconds : Rat) / 1000

/-- `durations[-1] = durations[-1] + duration`. -/
def bumpLast (durations : List Rat) (duration : Rat) : List Rat :=
  match durations with
  | [] => []
  | [d] => [d + duration]
  | d :: rest => d :: bumpLast rest duration

/-- One iteration of the `Clip.save_gif` loop.  State:
`(previous_image, imgs, durations)`; a frame whose image key equals
`previous_image` only extends the last duration, any other frame is
emitted as a new encoded frame. -/
def gifStep (st : Option String × List String × List Rat)
    (frame : String × Nat) : Option String × List String × List Rat :=
  let (previous_image, imgs, durations) := st
  let duration := durationMs frame.2
  if previous_image = some frame.1 then
    (previous_image, imgs, bumpLast durations duration)
  else
    (some frame.1, imgs ++ [frame.1], durations ++ [duration])

/-- The `Clip.save_gif` loop over `(image key, duration)` data. -/
def gifFold (frames : List (String × Nat))
    (st : Option String × List String × List Rat) :
    Option String × List String × List Rat :=
  frames.foldl gifStep st

/-- The `(frame.image.key, frame.duration)` pairs of a clip's frames,
or `none` when some frame row is missing (where the Python reads
would crash). -/
def clipFramesData (db : PikovDB) (fids : List Nat) :
    Option (List (String × Nat)) :=
  fids.mapM fun fid =>
    (db.frames.find? fun fr => fr.id = fid).map fun fr =>
      (fr.image_key, fr.duration_microseconds)

/-- `Clip.save_gif`, up to the external Pillow encoder: the list of
emitted image keys and their millisecond durations.  An empty clip
raises `NotFound('No frames to write to GIF.')`. -/
def save_gif_plan (db : PikovDB) (fids : List Nat) :
    Except PikovError (List String × List Rat) :=
  if fids = [] then .error .notFound
  else match clipFramesData db fids with
    | none => .error .typeError
    | some data =>
        let (_, imgs, durations) := gifFold data (none, [], [])
        .ok (imgs, durations)

/- ### Concrete databases used as witnesses -/

/-- An empty repository. -/
def dbEmpty : PikovDB :=
  { images := [], frames := [], transitions := [], start_frame_id := none }

/-- A 1x1 transparent image. -/
def img0 : RGBAImage :=
  { width := 1, height := 1, pix := fun _ _ => (0, 0, 0, 0) }

/-- The two-frame cycle of the walk-correctness scenario: frames `A = 1`
and `B = 2`, both 5 seconds long, with transitions `A → B` and
`B → A`. -/
def dbAB : PikovDB :=
  { images := [⟨"k", [], "image/png"⟩],
    frames := [⟨1, "k", 5000000, []⟩, ⟨2, "k", 5000000, []⟩],
    transitions := [⟨1, 1, 2⟩, ⟨2, 2, 1⟩],
    start_frame_id := some 1 }

/-- A graph with one ordinary frame (`1`, edge to `3`), one self-loop
frame (`2`) and one frame with no outgoing transitions (`3`). -/
def dbAbs : PikovDB :=
  { images := [],
    frames := [⟨3, "k", 1, []⟩, ⟨1, "k", 1, []⟩, ⟨2, "k", 1, []⟩],
    transitions := [⟨1, 2, 2⟩, ⟨2, 1, 3⟩],
    start_frame_id := none }

/- ### Lemmas about the image hash -/

/-- `imageBytes` only consults the pixels inside the image bounds. -/
theorem imageBytes_congr (img1 img2 : RGBAImage)
    (hw : img1.width = img2.width) (hh : img1.height = img2.height)
    (hp : ∀ x, x < img1.width → ∀ y, y < img1.height → img1.pix x y = img2.pix x y) :
    imageBytes img1 = imageBytes img2 := by
  unfold imageBytes
  rw [← hw, ← hh]
  refine List.flatMap_congr fun x hx => List.flatMap_congr fun y hy => ?_
  rw [hp x (List.mem_range.mp hx) y (List.mem_range.mp hy)]

/-- Pixel-identical images after RGBA normalization hash to the same
content key. -/
theorem hash_image_congr (img1 img2 : RGBAImage)
    (hw : img1.width = img2.width) (hh : img1.height = img2.height)
    (hp : ∀ x, x < img1.width → ∀ y, y < img1.height → img1.pix x y = img2.pix x y) :
    hash_image img1 = hash_image img2 := by
  unfold hash_image
  rw [imageBytes_congr img1 img2 hw hh hp]

/- ### C2 — content-addressed insertion is idempotent -/

/-- C2: inserting the same (pixel-identical after RGBA normalization)
bitmap twice yields the same content key both times; the first call
reports `inserted = true` when the key is new, the second call reports
`inserted = false` without raising, and it leaves the whole repository
state unchanged. -/
theorem add_image_idempotent (enc : RGBAImage → List Nat) (db : PikovDB)
    (img1 img2 : RGBAImage)
    (hw : img1.width = img2.width) (hh : img1.height = img2.height)
    (hp : ∀ x, x < img1.width → ∀ y, y < img1.height → img1.pix x y = img2.pix x y)
    (hfresh : hash_image img1 ∉ imageKeys db) :
    (add_image enc db img1).1.1 = (add_image enc (add_image enc db img1).2 img2).1.1 ∧
    (add_image enc db img1).1.2 = true ∧
    (add_image enc (add_image enc db img1).2 img2).1.2 = false ∧
    (add_image enc (add_image enc db img1).2 img2).2 = (add_image enc db img1).2 := by
  have hhash : hash_image img2 = hash_image img1 :=
    (hash_image_congr img1 img2 hw hh hp).symm
  have h1 : add_image enc db img1 =
      ((hash_image img1, true),
        { db with images := db.images ++ [⟨hash_image img1, enc img1, "image/png"⟩] }) := by
    simp [add_image, hfresh]
  have hmem : hash_image img1 ∈
      imageKeys { db with images := db.images ++ [⟨hash_image img1, enc img1, "image/png"⟩] } := by
    simp [imageKeys]
  rw [h1]
  simp [add_image, hhash, hmem]

/-- Witness for C2 at a concrete input: a fresh 1x1 image inserted
twice into the empty repository. -/
theorem add_image_idempotent_witness :
    ((1 : Nat) = 1 ∧ (1 : Nat) = 1 ∧
      (∀ x, x < img0.width → ∀ y, y < img0.height → img0.pix x y = img0.pix x y) ∧
      hash_image img0 ∉ imageKeys dbEmpty) ∧
    ((add_image (fun _ => []) dbEmpty img0).1.1 =
        (add_image (fun _ => []) (add_image (fun _ => []) dbEmpty img0).2 img0).1.1 ∧
      (add_image (fun _ => []) dbEmpty img0).1.2 = true ∧
      (add_image (fun _ => []) (add_image (fun _ => []) dbEmpty img0).2 img0).1.2 = false ∧
      (add_image (fun _ => []) (add_image (fun _ => []) dbEmpty img0).2 img0).2 =
        (add_image (fun _ => []) dbEmpty img0).2) :=
  ⟨⟨rfl, rfl, fun _ _ _ _ => rfl, by simp [imageKeys, dbEmpty]⟩,
    add_image_idempotent (fun _ => []) dbEmpty img0 img0 rfl rfl
      (fun _ _ _ _ => rfl) (by simp [imageKeys, dbEmpty])⟩

/- ### C6 — add_frame with an unknown image key -/

/-- C6: `add_frame` with an image key absent from the image store
fails with the foreign-key `IntegrityError` (the spec's
`ReferentialError`) and leaves the repository unchanged, so no frame
is created. -/
theorem add_frame_unknown_key (db : PikovDB) (key : String) (dur : Option Nat)
    (h : key ∉ imageKeys db) :
    (add_frame db key dur).1 = .error .referentialError ∧
    (add_frame db key dur).2 = db := by
  simp [add_frame, h]

/-- Witness for C6: adding a frame over an unknown key in the empty
repository. -/
theorem add_frame_unknown_key_witness :
    ("k" ∉ imageKeys dbEmpty) ∧
    (add_frame dbEmpty "k" none).1 = .error .referentialError ∧
    (add_frame dbEmpty "k" none).2 = dbEmpty :=
  ⟨by simp [imageKeys, dbEmpty],
    add_frame_unknown_key dbEmpty "k" none (by simp [imageKeys, dbEmpty])⟩

/- ### C7 — the start frame is set only when unset -/

/-- C7: a successful `add_frame` makes the new frame the start frame
exactly when no start frame was set (`UPDATE ... WHERE start_frame_id
IS NULL`), and otherwise leaves it untouched; the explicit
`start_frame` setter overwrites it with any existing frame or with
none; no other mutation touches it. -/
theorem add_frame_start_frame (db : PikovDB) (key : String) (dur : Option Nat)
    (h : key ∈ imageKeys db) :
    ((db.start_frame_id = none →
        (add_frame db key dur).2.start_frame_id = some (nextFrameId db)) ∧
      (∀ s, db.start_frame_id = some s →
        (add_frame db key dur).2.start_frame_id = some s)) ∧
    ((set_start_frame db none).2.start_frame_id = none ∧
      (∀ fid, fid ∈ frameIds db →
        (set_start_frame db (some fid)).2.start_frame_id = some fid)) ∧
    ((∀ enc img, (add_image enc db img).2.start_frame_id = db.start_frame_id) ∧
      (∀ fid k v db', set_property db fid k v = some db' →
        db'.start_frame_id = db.start_frame_id) ∧
      (∀ s t, (transition_to db s t).2.start_frame_id = db.start_frame_id) ∧
      (∀ th db' th', transitionDelete db th = .ok (db', th') →
        db'.start_frame_id = db.start_frame_id)) := by
  refine ⟨⟨?_, ?_⟩, ⟨?_, ?_⟩, ?_, ?_, ?_, ?_⟩
  · intro hs; simp [add_frame, h, hs]
  · intro s hs; simp [add_frame, h, hs]
  · simp [set_start_frame]
  · intro fid hfid; simp [set_start_frame, hfid]
  · intro enc img
    by_cases hmem : hash_image img ∈ imageKeys db <;> simp [add_image, hmem]
  · intro fid k v db' hset
    unfold set_property at hset
    split at hset
    · exact absurd hset (by simp)
    · simp only [Option.some.injEq] at hset
      rw [← hset]
  · intro s t
    unfold transition_to
    split <;> rfl
  · intro th db' th' hdel
    unfold transitionDelete at hdel
    split at hdel
    · exact absurd hdel (by simp)
    · simp only [Except.ok.injEq, Prod.mk.injEq] at hdel
      rw [← hdel.1]

/-- Witness for C7: adding a frame to a repository holding one image
and no start frame. -/
theorem add_frame_start_frame_witness :
    ("k" ∈ imageKeys { dbEmpty with images := [⟨"k", [], "image/png"⟩] }) ∧
    ({ dbEmpty with images := [⟨"k", [], "image/png"⟩] } :
        PikovDB).start_frame_id = none ∧
    (add_frame { dbEmpty with images := [⟨"k", [], "image/png"⟩] } "k"
        none).2.start_frame_id =
      some (nextFrameId { dbEmpty with images := [⟨"k", [], "image/png"⟩] }) :=
  ⟨by simp [imageKeys, dbEmpty], rfl,
    (add_frame_start_frame { dbEmpty with images := [⟨"k", [], "image/png"⟩] }
        "k" none (by simp [imageKeys, dbEmpty])).1.1 rfl⟩

/- ### C3 — absorbing-frame detection -/

/-- Membership in `find_absorbing_frames` unfolded to the underlying
tables. -/
theorem mem_find_absorbing_frames (db : PikovDB) (fid : Nat) :
    fid ∈ find_absorbing_frames db ↔
      fid ∈ frameIds db ∧
        ¬ ∃ t ∈ db.transitions,
          t.source_frame_id = fid ∧ t.target_frame_id ≠ fid := by
  unfold find_absorbing_frames
  rw [List.mem_insertionSort, List.mem_filter]
  simp [List.any_eq_true]

/-- C3: `find_absorbing_frames` keeps a frame with no outgoing
transitions, keeps a frame whose only outgoing transitions are
self-loops, drops any frame with a transition to a different frame,
and returns the kept frames sorted by ascending id (strictly
ascending when the frame ids are distinct, as the primary key makes
them). -/
theorem find_absorbing_frames_spec (db : PikovDB) :
    (∀ fr ∈ db.frames, (∀ t ∈ db.transitions, t.source_frame_id ≠ fr.id) →
      fr.id ∈ find_absorbing_frames db) ∧
    (∀ fr ∈ db.frames,
      (∀ t ∈ db.transitions, t.source_frame_id = fr.id → t.target_frame_id = fr.id) →
      fr.id ∈ find_absorbing_frames db) ∧
    (∀ fr ∈ db.frames, ∀ t ∈ db.transitions,
      t.source_frame_id = fr.id → t.target_frame_id ≠ fr.id →
      fr.id ∉ find_absorbing_frames db) ∧
    List.Sorted (· ≤ ·) (find_absorbing_frames db) ∧
    ((frameIds db).Nodup → List.Sorted (· < ·) (find_absorbing_frames db)) := by
  refine ⟨?_, ?_, ?_, ?_, ?_⟩
  · intro fr hfr hnone
    rw [mem_find_absorbing_frames]
    refine ⟨List.mem_map_of_mem FrameRow.id hfr, ?_⟩
    rintro ⟨t, ht, hsrc, -⟩
    exact hnone t ht hsrc
  · intro fr hfr hself
    rw [mem_find_absorbing_frames]
    refine ⟨List.mem_map_of_mem FrameRow.id hfr, ?_⟩
    rintro ⟨t, ht, hsrc, htgt⟩
    exact htgt (hself t ht hsrc)
  · intro fr hfr t ht hsrc htgt
    rw [mem_find_absorbing_frames]
    rintro ⟨-, hno⟩
    exact hno ⟨t, ht, hsrc, htgt⟩
  · exact List.sorted_insertionSort _ _
  · intro hnodup
    refine List.Sorted.lt_of_le (List.sorted_insertionSort _ _) ?_
    exact ((List.perm_insertionSort _ _).nodup_iff).mpr (hnodup.filter _)

/-- Witness for C3 on the concrete graph `dbAbs`: frame `3` has no
outgoing transitions and is reported absorbing. -/
theorem find_absorbing_frames_witness :
    ((⟨3, "k", 1, []⟩ : FrameRow) ∈ dbAbs.frames) ∧
    (3 : Nat) ∈ find_absorbing_frames dbAbs :=
  ⟨by simp [dbAbs],
    (find_absorbing_frames_spec dbAbs).1 ⟨3, "k", 1, []⟩ (by simp [dbAbs])
      (by decide)⟩

/- ### C4 — deleting a transition -/

/-- Membership in a frame's outgoing-transition listing, unfolded to
the `transition` table. -/
theorem mem_frameTransitions (db : PikovDB) (fid : Nat) (t : TransitionRow) :
    t ∈ frameTransitions db fid ↔
      t ∈ db.transitions ∧ t.source_frame_id = fid := by
  unfold frameTransitions
  rw [List.mem_insertionSort, List.mem_filter]
  simp

/-- C4: a successful `delete()` makes every later `source`, `target`
and `delete()` on the handle raise the deleted-transition `ValueError`
(the spec's `InvalidState`) — the cached endpoints are never served —
and removes the edge from every frame's outgoing transitions, in
particular from its source frame's. -/
theorem transition_delete_invalidates (db : PikovDB) (h : TransitionHandle)
    (hdel : h.deleted = false) :
    transitionDelete db h =
      .ok ({ db with transitions := db.transitions.filter fun t => ¬t.id = h.id },
        { h with deleted := true }) ∧
    transitionSource
        { db with transitions := db.transitions.filter fun t => ¬t.id = h.id }
        { h with deleted := true } = .error .invalidState ∧
    transitionTarget
        { db with transitions := db.transitions.filter fun t => ¬t.id = h.id }
        { h with deleted := true } = .error .invalidState ∧
    transitionDelete
        { db with transitions := db.transitions.filter fun t => ¬t.id = h.id }
        { h with deleted := true } = .error .invalidState ∧
    ∀ fid, h.id ∉
      (frameTransitions
        { db with transitions := db.transitions.filter fun t => ¬t.id = h.id }
        fid).map TransitionRow.id := by
  refine ⟨by simp [transitionDelete, hdel], by simp [transitionSource],
    by simp [transitionTarget], by simp [transitionDelete], ?_⟩
  intro fid hmem
  rcases List.mem_map.mp hmem with ⟨t, ht, hid⟩
  rcases (mem_frameTransitions _ fid t).mp ht with ⟨htab, -⟩
  rcases List.mem_filter.mp htab with ⟨-, hne⟩
  simp [hid] at hne

/-- Witness for C4: deleting the edge `A → B` of the two-frame cycle
through a fresh handle. -/
theorem transition_delete_invalidates_witness :
    ((⟨1, false, none, none⟩ : TransitionHandle).deleted = false) ∧
    (transitionDelete dbAB ⟨1, false, none, none⟩ =
      .ok ({ dbAB with
              transitions := dbAB.transitions.filter fun t => ¬t.id = 1 },
        ⟨1, true, none, none⟩) ∧
    transitionSource
        { dbAB with transitions := dbAB.transitions.filter fun t => ¬t.id = 1 }
        ⟨1, true, none, none⟩ = .error .invalidState ∧
    transitionTarget
        { dbAB with transitions := dbAB.transitions.filter fun t => ¬t.id = 1 }
        ⟨1, true, none, none⟩ = .error .invalidState ∧
    transitionDelete
        { dbAB with transitions := dbAB.transitions.filter fun t => ¬t.id = 1 }
        ⟨1, true, none, none⟩ = .error .invalidState ∧
    ∀ fid, (1 : Nat) ∉
      (frameTransitions
        { dbAB with transitions := dbAB.transitions.filter fun t => ¬t.id = 1 }
        fid).map TransitionRow.id) :=
  ⟨rfl, transition_delete_invalidates dbAB ⟨1, false, none, none⟩ rfl⟩

/- ### C8 — set_property with the null sentinel -/

/-- A one-frame repository whose frame `1` carries the property
`a = 1`. -/
def db8 : PikovDB :=
  { images := [],
    frames := [⟨1, "k", 100000, [("a", JValue.num 1)]⟩],
    transitions := [],
    start_frame_id := none }

/-- The repository `db8` after `set_property(1, "a", None)`: the key
is still present, now mapping to JSON `null`. -/
def db8post : PikovDB :=
  { images := [],
    frames := [⟨1, "k", 100000, [("a", JValue.null)]⟩],
    transitions := [],
    start_frame_id := none }

/-- Counterexample to C8: setting the property `a` of frame `1` to the
null sentinel does not remove the key — the persisted bag afterwards
still contains `a`, mapped to JSON `null` (Python's
`properties[key] = None` stores `null`, it never deletes). -/
theorem set_property_null_keeps_key :
    set_property db8 1 "a" JValue.null = some db8post ∧
    frameProperties db8post 1 = some [("a", JValue.null)] ∧
    "a" ∈ ([("a", JValue.null)].map Prod.fst) :=
  ⟨rfl, rfl, by simp⟩

/-- `setAssoc` stores the assigned key. -/
theorem mem_setAssoc_self (props : List (String × JValue)) (key : String)
    (v : JValue) : key ∈ (setAssoc props key v).map Prod.fst := by
  induction props with
  | nil => simp [setAssoc]
  | cons p rest ih =>
    by_cases hk : p.1 = key
    · simp [setAssoc, hk]
    · simpa [setAssoc, hk] using Or.inr ih

/-- `setAssoc` makes lookup of the assigned key return the assigned
value. -/
theorem lookup_setAssoc (props : List (String × JValue)) (key : String)
    (v : JValue) : (setAssoc props key v).lookup key = some v := by
  induction props with
  | nil => simp [setAssoc, List.lookup]
  | cons p rest ih =>
    by_cases hk : p.1 = key
    · simp [setAssoc, hk, List.lookup]
    · have hbeq : (key == p.1) = false := by
        simp [String.ext_iff] at *
        exact fun he => hk he.symm
      simp [setAssoc, hk, List.lookup, hbeq, ih]

/-- Updating the rows matching an id commutes with looking the id up. -/
theorem find?_map_update (l : List FrameRow) (fid : Nat)
    (upd : FrameRow → FrameRow) (hupd : ∀ f, (upd f).id = f.id) :
    (l.map fun f => if f.id = fid then upd f else f).find?
        (fun f => f.id = fid) =
      (l.find? fun f => f.id = fid).map upd := by
  induction l with
  | nil => simp
  | cons f rest ih =>
    by_cases hf : f.id = fid
    · simp [List.find?_cons, hf, hupd]
    · simp [List.find?_cons, hf, hupd, ih]

/-- C8 amended: `set_property` with the null sentinel stores the key
mapped to JSON `null` — the persisted bag still contains the key —
and a later `get_property` returns `None`, so the removal is only
observable at the storage level, not through `get_property`. -/
theorem set_property_null_stores_null (db : PikovDB) (fid : Nat)
    (key : String) (fr : FrameRow)
    (hfind : db.frames.find? (fun f => f.id = fid) = some fr) :
    set_property db fid key JValue.null =
      some { db with frames := db.frames.map fun f =>
        if f.id = fid then
          { f with properties := setAssoc f.properties key JValue.null }
        else f } ∧
    frameProperties
        { db with frames := db.frames.map fun f =>
          if f.id = fid then
            { f with properties := setAssoc f.properties key JValue.null }
          else f } fid =
      some (setAssoc fr.properties key JValue.null) ∧
    key ∈ (setAssoc fr.properties key JValue.null).map Prod.fst ∧
    get_property
        { db with frames := db.frames.map fun f =>
          if f.id = fid then
            { f with properties := setAssoc f.properties key JValue.null }
          else f } fid key =
      some JValue.null := by
  have hprops : frameProperties
      { db with frames := db.frames.map fun f =>
        if f.id = fid then
          { f with properties := setAssoc f.properties key JValue.null }
        else f } fid =
      some (setAssoc fr.properties key JValue.null) := by
    unfold frameProperties
    rw [find?_map_update db.frames fid
        (fun f => { f with properties := setAssoc f.properties key JValue.null })
        (fun f => rfl), hfind]
    rfl
  refine ⟨?_, hprops, mem_setAssoc_self fr.properties key JValue.null, ?_⟩
  · simp [set_property, hfind]
  · unfold get_property
    rw [hprops]
    simp [lookup_setAssoc]

/-- Witness for the amended C8 on the concrete repository `db8`. -/
theorem set_property_null_stores_null_witness :
    (db8.frames.find? (fun f => f.id = 1) =
      some ⟨1, "k", 100000, [("a", JValue.num 1)]⟩) ∧
    get_property
        { db8 with frames := db8.frames.map fun f =>
          if f.id = 1 then
            { f with properties := setAssoc f.properties "a" JValue.null }
          else f } 1 "a" =
      some JValue.null :=
  ⟨rfl, (set_property_null_stores_null db8 1 "a"
      ⟨1, "k", 100000, [("a", JValue.num 1)]⟩ rfl).2.2.2⟩

/- ### C5 — the exporter coalesces consecutive identical images -/

/-- `gifFold` over nil and cons, and split over an append. -/
theorem gifFold_nil (st : Option String × List String × List Rat) :
    gifFold [] st = st := rfl

/-- Unfolding one frame of the export loop. -/
theorem gifFold_cons (f : String × Nat) (fs : List (String × Nat))
    (st : Option String × List String × List Rat) :
    gifFold (f :: fs) st = gifFold fs (gifStep st f) := rfl

/-- The export loop processes an appended list in two stages. -/
theorem gifFold_append (xs ys : List (String × Nat))
    (st : Option String × List String × List Rat) :
    gifFold (xs ++ ys) st = gifFold ys (gifFold xs st) := by
  simp [gifFold, List.foldl_append]

/-- One step of the export loop, on an explicit state triple. -/
theorem gifStep_eq (p : Option String) (I : List String) (D : List Rat)
    (f : String × Nat) :
    gifStep (p, I, D) f =
      if p = some f.1 then (p, I, bumpLast D (durationMs f.2))
      else (some f.1, I ++ [f.1], D ++ [durationMs f.2]) := rfl

/-- `durations[-1] += d` on a list with an exposed last element. -/
theorem bumpLast_concat (xs : List Rat) (a d : Rat) :
    bumpLast (xs ++ [a]) d = xs ++ [a + d] := by
  induction xs with
  | nil => simp [bumpLast]
  | cons x xs ih =>
    cases xs with
    | nil => simp [bumpLast]
    | cons y ys => simpa [bumpLast] using ih

/-- `durations[-1] += d` never touches a proper prefix. -/
theorem bumpLast_append_left (Y B : List Rat) (d : Rat) (hB : B ≠ []) :
    bumpLast (Y ++ B) d = Y ++ bumpLast B d := by
  induction Y with
  | nil => simp
  | cons y Y ih =>
    have h1 : Y ++ B ≠ [] := fun h => hB (List.append_eq_nil.mp h).2
    obtain ⟨z, zs, hzz⟩ := List.exists_cons_of_ne_nil h1
    rw [List.cons_append, hzz,
      show bumpLast (y :: z :: zs) d = y :: bumpLast (z :: zs) d from rfl,
      ← hzz, ih, List.cons_append]

/-- `durations[-1] += d` keeps the list nonempty. -/
theorem bumpLast_ne_nil (B : List Rat) (d : Rat) (hB : B ≠ []) :
    bumpLast B d ≠ [] := by
  cases B with
  | nil => exact absurd rfl hB
  | cons b bs => cases bs <;> simp [bumpLast]

/-- Emitted frames and durations accumulate by appending: the loop
started on a longer accumulator produces the same output, prefixed. -/
theorem gifFold_extend (ys : List (String × Nat)) :
    ∀ (p : Option String) (A X : List String) (B Y : List Rat), B ≠ [] →
      gifFold ys (p, X ++ A, Y ++ B) =
        ((gifFold ys (p, A, B)).1,
          X ++ (gifFold ys (p, A, B)).2.1,
          Y ++ (gifFold ys (p, A, B)).2.2) := by
  induction ys with
  | nil => intro p A X B Y hB; simp [gifFold]
  | cons f ys ih =>
    intro p A X B Y hB
    rw [gifFold_cons, gifFold_cons, gifStep_eq, gifStep_eq]
    by_cases hp : p = some f.1
    · rw [if_pos hp, if_pos hp, bumpLast_append_left Y B _ hB]
      exact ih p A X (bumpLast B (durationMs f.2)) Y
        (bumpLast_ne_nil B _ hB)
    · rw [if_neg hp, if_neg hp, List.append_assoc X A, List.append_assoc Y B]
      exact ih (some f.1) (A ++ [f.1]) X (B ++ [durationMs f.2]) Y
        (by simp)

/-- The millisecond values of the three durations of the scenario. -/
theorem durationMs_values :
    durationMs 100000 = 100 ∧ durationMs 150000 = 150 ∧
      durationMs 50000 = 50 := by
  refine ⟨?_, ?_, ?_⟩ <;> norm_num [durationMs]

/-- C5: when three consecutive frames of the exported clip carry the
same image key `k` with durations 100ms, 150ms and 50ms, and the
frames around them (if any) carry different keys, `save_gif` emits
exactly one encoded frame for the three, of duration 300ms, leaving
the frames emitted before and after unchanged. -/
theorem save_gif_coalesces (db : PikovDB) (fids : List Nat)
    (pre post : List (String × Nat)) (k : String)
    (hne : fids ≠ [])
    (hdata : clipFramesData db fids =
      some (pre ++ [(k, 100000), (k, 150000), (k, 50000)] ++ post))
    (hpre : (gifFold pre (none, [], [])).1 ≠ some k)
    (hpost : ∀ q d, post.head? = some (q, d) → q ≠ k) :
    save_gif_plan db fids =
      .ok ((gifFold pre (none, [], [])).2.1 ++
            k :: (gifFold post (some k, [], [])).2.1,
          (gifFold pre (none, [], [])).2.2 ++
            300 :: (gifFold post (some k, [], [])).2.2) := by
  obtain ⟨hd100, hd150, hd50⟩ := durationMs_values
  unfold save_gif_plan
  rw [if_neg hne, hdata]
  dsimp only
  have hsplit : gifFold
      (pre ++ [(k, 100000), (k, 150000), (k, 50000)] ++ post)
      (none, [], []) =
      gifFold post (gifFold [(k, 100000), (k, 150000), (k, 50000)]
        (gifFold pre (none, [], []))) := by
    rw [gifFold_append, gifFold_append]
  have hmid : gifFold [(k, 100000), (k, 150000), (k, 50000)]
      (gifFold pre (none, [], [])) =
      (some k, (gifFold pre (none, [], [])).2.1 ++ [k],
        (gifFold pre (none, [], [])).2.2 ++ [300]) := by
    rw [show gifFold pre (none, [], []) =
        ((gifFold pre (none, [], [])).1, (gifFold pre (none, [], [])).2.1,
          (gifFold pre (none, [], [])).2.2) from rfl]
    rw [gifFold_cons, gifStep_eq, if_neg hpre]
    rw [gifFold_cons, gifStep_eq, if_pos rfl]
    rw [gifFold_cons, gifStep_eq, if_pos rfl, gifFold_nil]
    rw [hd100, hd150, hd50, bumpLast_concat, bumpLast_concat]
    norm_num
  rw [hsplit, hmid]
  cases hpp : post with
  | nil =>
    rw [gifFold_nil, gifFold_nil]
  | cons q rest =>
    have hq : q.1 ≠ k := hpost q.1 q.2 (by rw [hpp]; rfl)
    have hkq : (some k : Option String) ≠ some q.1 :=
      fun h => hq (Option.some.inj h).symm
    rw [gifFold_cons, gifStep_eq, if_neg hkq]
    rw [gifFold_cons, gifStep_eq, if_neg hkq]
    rw [List.append_assoc _ [k] [q.1], List.append_assoc _ [(300 : Rat)]]
    rw [gifFold_extend rest (some q.1) ([k] ++ [q.1]) _ ([300] ++ [durationMs q.2]) _ (by simp)]
    rw [gifFold_extend rest (some q.1) ([q.1]) [k] ([durationMs q.2]) [(300 : Rat)] (by simp)]
    simp

/-- Four frames for the export scenario: three with image key `a` and
durations 100ms/150ms/50ms, one with key `b`. -/
def db5 : PikovDB :=
  { images := [],
    frames := [⟨1, "a", 100000, []⟩, ⟨2, "a", 150000, []⟩,
      ⟨3, "a", 50000, []⟩, ⟨4, "b", 100000, []⟩],
    transitions := [],
    start_frame_id := none }

/-- Witness for C5: exporting the clip `[4, 1, 2, 3]` of `db5` (a
`b`-frame followed by the three `a`-frames) emits two encoded frames,
the second covering the three `a`-frames with duration 300ms. -/
theorem save_gif_coalesces_witness :
    (clipFramesData db5 [4, 1, 2, 3] =
      some ([("b", 100000)] ++
        [("a", 100000), ("a", 150000), ("a", 50000)] ++ []) ∧
      (gifFold [("b", 100000)] (none, [], [])).1 ≠ some "a") ∧
    save_gif_plan db5 [4, 1, 2, 3] =
      .ok ((gifFold [("b", 100000)] (none, [], [])).2.1 ++
            "a" :: (gifFold [] (some "a", [], [])).2.1,
          (gifFold [("b", 100000)] (none, [], [])).2.2 ++
            300 :: (gifFold [] (some "a", [], [])).2.2) :=
  ⟨⟨rfl, by decide⟩,
    save_gif_coalesces db5 [4, 1, 2, 3] [("b", 100000)] [] "a"
      (by simp) rfl (by decide) (by simp)⟩

/- ### The walk: step relation and supporting lemmas -/

/-- The possible single steps of the preview walk: either the graph
holds a transition from `f` to `g`, or `f` has no outgoing transition
at all and the walk repeats `f` in place. -/
def walkRel (db : PikovDB) (f g : Nat) : Prop :=
  (∃ t ∈ db.transitions, t.source_frame_id = f ∧ t.target_frame_id = g) ∨
  ((∀ t ∈ db.transitions, t.source_frame_id ≠ f) ∧ g = f)

/-- Whatever the random draw, `get_random_next` takes a `walkRel`
step. -/
theorem get_random_next_rel (db : PikovDB) (f r : Nat) :
    walkRel db f (get_random_next db f r) := by
  unfold get_random_next
  dsimp only
  split
  · rename_i htgts
    right
    refine ⟨?_, rfl⟩
    intro t ht hsrc
    have hmem : t ∈ frameTransitions db f :=
      (mem_frameTransitions db f t).mpr ⟨ht, hsrc⟩
    have : t.target_frame_id ∈
        (frameTransitions db f).map TransitionRow.target_frame_id :=
      List.mem_map_of_mem _ hmem
    rw [htgts] at this
    exact absurd this (List.not_mem_nil _)
  · left
    rename_i htgts
    have hmem : ((frameTransitions db f).map TransitionRow.target_frame_id).get
        ⟨r % ((frameTransitions db f).map TransitionRow.target_frame_id).length,
          Nat.mod_lt _ (List.length_pos.mpr htgts)⟩ ∈
        (frameTransitions db f).map TransitionRow.target_frame_id :=
      List.get_mem _ _ _
    rcases List.mem_map.mp hmem with ⟨t, ht, htgt⟩
    rcases (mem_frameTransitions db f t).mp ht with ⟨htab, hsrc⟩
    exact ⟨t, htab, hsrc, htgt⟩

/-- Whatever the random draw, `get_random_next` stays inside the frame
table when the transition targets do (the foreign keys guarantee
that). -/
theorem get_random_next_mem (db : PikovDB) (f r : Nat)
    (hclosed : ∀ t ∈ db.transitions, t.target_frame_id ∈ frameIds db)
    (hf : f ∈ frameIds db) :
    get_random_next db f r ∈ frameIds db := by
  rcases get_random_next_rel db f r with ⟨t, ht, -, htgt⟩ | ⟨-, heq⟩
  · rw [← htgt]; exact hclosed t ht
  · rw [heq]; exact hf

/-- A frame of the table has the positive duration its row carries. -/
theorem frameDur_pos (db : PikovDB) (f : Nat)
    (hpos : ∀ fr ∈ db.frames, 0 < fr.duration_microseconds)
    (hf : f ∈ frameIds db) : 0 < frameDur db f := by
  rcases List.mem_map.mp hf with ⟨fr, hfr, hid⟩
  rcases hfind : db.frames.find? fun r => r.id = f with _ | fr2
  · rw [List.find?_eq_none] at hfind
    exact absurd (by simp [hid]) (hfind fr hfr)
  · have hmem := List.mem_of_find?_eq_some hfind
    unfold frameDur
    rw [hfind]
    exact hpos fr2 hmem

/- ### C9 — the walk terminates under positive durations -/

/-- Under positive durations, the loop exits within the remaining
fuel whenever the fuel exceeds the duration budget still available:
each iteration adds at least one microsecond to `total`, and once
`total` cannot grow further without passing `maxD` the loop breaks. -/
theorem previewLoop_terminates (db : PikovDB) (oracle : Nat → Nat)
    (start minD maxD : Nat)
    (hpos : ∀ fr ∈ db.frames, 0 < fr.duration_microseconds)
    (hclosed : ∀ t ∈ db.transitions, t.target_frame_id ∈ frameIds db) :
    ∀ fuel k acc total next, next ∈ frameIds db →
      total ≤ maxD + 1 → maxD + 2 ≤ fuel + total →
      (previewLoop db oracle start minD maxD fuel k acc total next).isSome := by
  intro fuel
  induction fuel with
  | zero => intro k acc total next _ hle hge; omega
  | succ fuel ih =>
    intro k acc total next hnext hle hge
    rw [previewLoop]
    split
    · dsimp only
      set nxt := get_random_next db next (oracle k) with hnxt
      have hnxtmem : nxt ∈ frameIds db :=
        get_random_next_mem db next (oracle k) hclosed hnext
      have hdnext : 0 < frameDur db next := frameDur_pos db next hpos hnext
      have hdnxt : 0 < frameDur db nxt := frameDur_pos db nxt hpos hnxtmem
      split
      · simp
      · rename_i hnb
        push_neg at hnb
        exact ih (k + 1) (acc ++ [next]) (total + frameDur db next) nxt
          hnxtmem (by omega) (by omega)
    · simp

/-- C9: on a graph whose frames all have strictly positive durations
(with the walk's start frame in the frame table and referential
integrity on transition targets), the preview walk exits its loop
after finitely many iterations for every random oracle and every
bound — in particular it does not spin forever on an absorbing frame
different from the start frame. -/
theorem preview_walk_terminates (db : PikovDB) (oracle : Nat → Nat)
    (start minD maxD : Nat)
    (hpos : ∀ fr ∈ db.frames, 0 < fr.duration_microseconds)
    (hstart : start ∈ frameIds db)
    (hclosed : ∀ t ∈ db.transitions, t.target_frame_id ∈ frameIds db) :
    ∃ fuel, (preview_clip_fuel db oracle start minD maxD fuel).isSome :=
  ⟨maxD + 2,
    previewLoop_terminates db oracle start minD maxD hpos hclosed
      (maxD + 2) 0 [] 0 start hstart (by omega) (by omega)⟩

/-- Witness for C9: the walk of `dbAbs` started on frame `1`, which
runs into the absorbing frame `3`, still terminates. -/
theorem preview_walk_terminates_witness :
    ((∀ fr ∈ dbAbs.frames, 0 < fr.duration_microseconds) ∧
      (1 : Nat) ∈ frameIds dbAbs ∧
      (∀ t ∈ dbAbs.transitions, t.target_frame_id ∈ frameIds dbAbs)) ∧
    ∃ fuel, (preview_clip_fuel dbAbs (fun _ => 0) 1 3 10 fuel).isSome :=
  ⟨⟨by decide, by decide, by decide⟩,
    preview_walk_terminates dbAbs (fun _ => 0) 1 3 10
      (by decide) (by decide) (by decide)⟩

/- ### C10 — consecutive frames of the walk output -/

/-- The loop preserves `walkRel` chaining of the accumulator: every
output list is a `walkRel` chain. -/
theorem previewLoop_chain (db : PikovDB) (oracle : Nat → Nat)
    (start minD maxD : Nat) :
    ∀ fuel k acc total next frames,
      previewLoop db oracle start minD maxD fuel k acc total next =
        some frames →
      List.Chain' (walkRel db) acc →
      (∀ l, acc.getLast? = some l → walkRel db l next) →
      List.Chain' (walkRel db) frames := by
  intro fuel
  induction fuel with
  | zero => intro k acc total next frames h; exact absurd h (by simp [previewLoop])
  | succ fuel ih =>
    intro k acc total next frames h hchain hlast
    rw [previewLoop] at h
    have hchain' : List.Chain' (walkRel db) (acc ++ [next]) := by
      rw [List.chain'_append]
      exact ⟨hchain, List.chain'_singleton next,
        fun x hx y hy => by
          rw [List.head?_cons, Option.mem_some_iff] at hy
          rw [← hy]
          exact hlast x hx⟩
    split at h
    · dsimp only at h
      split at h
      · rw [Option.some.injEq] at h
        rw [← h]
        exact hchain'
      · exact ih (k + 1) (acc ++ [next]) (total + frameDur db next)
          (get_random_next db next (oracle k)) frames h hchain'
          (fun l hl => by
            rw [List.getLast?_concat, Option.some.injEq] at hl
            rw [← hl]
            exact get_random_next_rel db next (oracle k))
    · rw [Option.some.injEq] at h
      rw [← h]
      exact hchain

/-- C10: in every frame list the preview walk outputs, each pair of
consecutive frames `(f, g)` is either an edge of the transition table
or a stuck self-repeat of a frame with no outgoing transitions. -/
theorem preview_walk_consecutive (db : PikovDB) (oracle : Nat → Nat)
    (start minD maxD fuel : Nat) (frames : List Nat)
    (h : preview_clip_fuel db oracle start minD maxD fuel = some frames) :
    List.Chain' (walkRel db) frames :=
  previewLoop_chain db oracle start minD maxD fuel 0 [] 0 start frames h
    List.chain'_nil (fun l hl => by simp at hl)

/-- Witness for C10: the concrete run of the two-frame cycle produces
`[1, 2]`, a `walkRel` chain. -/
theorem preview_walk_consecutive_witness :
    (preview_clip_fuel dbAB (fun _ => 0) 1 8000000 30000000 10 =
      some [1, 2]) ∧
    List.Chain' (walkRel dbAB) [1, 2] :=
  ⟨rfl, preview_walk_consecutive dbAB (fun _ => 0) 1 8000000 30000000 10
    [1, 2] rfl⟩

/- ### C1 — the two-frame-cycle walk -/

/-- Adding fuel never changes a walk result that already exited the
loop on its own. -/
theorem previewLoop_mono (db : PikovDB) (oracle : Nat → Nat)
    (start minD maxD : Nat) :
    ∀ fuel fuel' k acc total next res, fuel ≤ fuel' →
      previewLoop db oracle start minD maxD fuel k acc total next =
        some res →
      previewLoop db oracle start minD maxD fuel' k acc total next =
        some res := by
  intro fuel
  induction fuel with
  | zero =>
    intro fuel' k acc total next res _ h
    exact absurd h (by simp [previewLoop])
  | succ fuel ih =>
    intro fuel' k acc total next res hle h
    cases fuel' with
    | zero => omega
    | succ fuel2 =>
      rw [previewLoop] at h ⊢
      dsimp only at h ⊢
      by_cases hguard : total < minD ∨ next ≠ start
      · rw [if_pos hguard] at h ⊢
        by_cases hbreak : total + frameDur db next +
            frameDur db (get_random_next db next (oracle k)) > maxD
        · rw [if_pos hbreak] at h ⊢
          exact h
        · rw [if_neg hbreak] at h ⊢
          exact ih fuel2 (k + 1) (acc ++ [next]) (total + frameDur db next)
            (get_random_next db next (oracle k)) res (by omega) h
      · rw [if_neg hguard] at h ⊢
        exact h

/-- In the two-frame cycle, frame `1` always steps to frame `2`. -/
theorem get_random_next_dbAB_1 (r : Nat) : get_random_next dbAB 1 r = 2 := by
  simp [get_random_next, show frameTransitions dbAB 1 = [⟨1, 1, 2⟩] from rfl,
    Nat.mod_one]

/-- In the two-frame cycle, frame `2` always steps to frame `1`. -/
theorem get_random_next_dbAB_2 (r : Nat) : get_random_next dbAB 2 r = 1 := by
  simp [get_random_next, show frameTransitions dbAB 2 = [⟨2, 2, 1⟩] from rfl,
    Nat.mod_one]

/-- On the two-frame cycle every frame has exactly one outgoing
transition, so the walk does not depend on the random oracle. -/
theorem previewLoop_dbAB_oracle (minD maxD : Nat) (o1 o2 : Nat → Nat) :
    ∀ fuel k1 k2 acc total next, (next = 1 ∨ next = 2) →
      previewLoop dbAB o1 1 minD maxD fuel k1 acc total next =
      previewLoop dbAB o2 1 minD maxD fuel k2 acc total next := by
  intro fuel
  induction fuel with
  | zero => intros; rfl
  | succ fuel ih =>
    intro k1 k2 acc total next hnext
    rw [previewLoop, previewLoop]
    dsimp only
    have hng : get_random_next dbAB next (o1 k1) =
        get_random_next dbAB next (o2 k2) ∧
        (get_random_next dbAB next (o2 k2) = 1 ∨
          get_random_next dbAB next (o2 k2) = 2) := by
      rcases hnext with h1 | h2
      · rw [h1, get_random_next_dbAB_1, get_random_next_dbAB_1]
        exact ⟨rfl, Or.inr rfl⟩
      · rw [h2, get_random_next_dbAB_2, get_random_next_dbAB_2]
        exact ⟨rfl, Or.inl rfl⟩
    rw [hng.1]
    by_cases hguard : total < minD ∨ next ≠ 1
    · rw [if_pos hguard, if_pos hguard]
      by_cases hbreak : total + frameDur dbAB next +
          frameDur dbAB (get_random_next dbAB next (o2 k2)) > maxD
      · rw [if_pos hbreak, if_pos hbreak]
      · rw [if_neg hbreak, if_neg hbreak]
        exact ih (k1 + 1) (k2 + 1) (acc ++ [next])
          (total + frameDur dbAB next) (get_random_next dbAB next (o2 k2))
          hng.2
    · rw [if_neg hguard, if_neg hguard]

/-- Counterexample to C1: on the cycle `A = 1 → B = 2 → A` with both
durations 5 seconds, `minDuration` 8s and `maxDuration` 30s, the walk
returns `[A, B]` — not `[A, B, A]`: the loop guard
`total < min or next != start` stops before appending the start frame
again. -/
theorem preview_clip_two_cycle_cex :
    preview_clip_fuel dbAB (fun _ => 0) 1 8000000 30000000 10 =
      some [1, 2] ∧
    (some [1, 2] : Option (List Nat)) ≠ some [1, 2, 1] :=
  ⟨rfl, by decide⟩

/-- C1 amended: the walk of the two-frame 5s/5s cycle with
`minDuration` 8s and `maxDuration` 30s returns exactly `[A, B]` (10s
in total) — for every random oracle and every fuel on which the loop
exits — stopping as soon as the minimum duration is met and the next
frame would be the start frame, without appending the start frame
again. -/
theorem preview_clip_two_cycle (oracle : Nat → Nat) (n : Nat)
    (r : List Nat)
    (h : preview_clip_fuel dbAB oracle 1 8000000 30000000 n = some r) :
    r = [1, 2] := by
  have hirr : preview_clip_fuel dbAB oracle 1 8000000 30000000 n =
      preview_clip_fuel dbAB (fun _ => 0) 1 8000000 30000000 n :=
    previewLoop_dbAB_oracle 8000000 30000000 oracle (fun _ => 0) n 0 0 [] 0 1
      (Or.inl rfl)
  rw [hirr] at h
  have h10 : preview_clip_fuel dbAB (fun _ => 0) 1 8000000 30000000 10 =
      some [1, 2] := rfl
  rcases Nat.le_total n 10 with hle | hge
  · have h2 : preview_clip_fuel dbAB (fun _ => 0) 1 8000000 30000000 10 =
        some r :=
      previewLoop_mono dbAB (fun _ => 0) 1 8000000 30000000 n 10 0 [] 0 1 r
        hle h
    rw [h10] at h2
    exact (Option.some.inj h2).symm
  · have h2 : preview_clip_fuel dbAB (fun _ => 0) 1 8000000 30000000 n =
        some [1, 2] :=
      previewLoop_mono dbAB (fun _ => 0) 1 8000000 30000000 10 n 0 [] 0 1
        [1, 2] hge h10
    rw [h] at h2
    exact Option.some.inj h2

/-- Witness for the amended C1: the concrete run with the zero oracle
and fuel 10. -/
theorem preview_clip_two_cycle_witness :
    (preview_clip_fuel dbAB (fun _ => 0) 1 8000000 30000000 10 =
      some [1, 2]) ∧
    ([1, 2] : List Nat) = [1, 2] :=
  ⟨rfl, preview_clip_two_cycle (fun _ => 0) 10 [1, 2] rfl⟩
